import Mathlib

/-!
Verification of the grading and score-recalculation engine of the ToeicExamBE
repository, as embedded from:
- src/infrastructure/repositories/question.repository.ts
  (update, recalculateAttemptScores),
- src/application/services/exam.service.ts
  (getExamById, transformToExamDetailResponse),
- src/scripts/test-scoring-comparison.ts (scoring formulas).

The scoring code performs its arithmetic on JavaScript numbers, i.e. IEEE-754
binary64 values.  Machine floating point is embedded exactly: a nonnegative
double is represented as a pair (n, d) of naturals with value n / d where d is
a power of two, and rounding to nearest (ties to even) is carried out on exact
natural-number arithmetic.  Overflow and subnormal values cannot arise in the
ranges the scoring code touches (all values lie between 1/100000 and 990).
-/

set_option maxRecDepth 100000
set_option maxHeartbeats 1000000

namespace ToeicExam

/-! ### IEEE-754 binary64 arithmetic, embedded exactly on naturals -/

/-- Fuel-bounded floor of log2; with fuel at least n this computes
the floor of log2 of n for positive n, and 0 for n = 0 or n = 1. -/
def log2fuel : ℕ → ℕ → ℕ
  | 0, _ => 0
  | f + 1, n => if n ≤ 1 then 0 else log2fuel f (n / 2) + 1

/-- Round the nonnegative rational num / den to the nearest IEEE-754 binary64
value (round to nearest, ties to even), returned as a pair (m, d) of value
m / d with d a power of two.  E is the floor of log2 of (num / den) plus 64,
obtained from the integer quotient num * 2 ^ 64 / den; the significand m is
the 53-bit rounding of num * 2 ^ s / den where s = 116 - E = 52 - log2.  This
is the exact semantics of a JavaScript arithmetic operator producing the
quotient num / den, valid whenever 2 ^ (-64) < num / den < 2 ^ 52, which
covers every value the scoring code produces. -/
def fl (num den : ℕ) : ℕ × ℕ :=
  if num = 0 then (0, 1) else
  let E := log2fuel (num * 2 ^ 64) (num * 2 ^ 64 / den)
  let s := 116 - E
  let N := num * 2 ^ s
  let k := N / den
  let r := N % den
  let m := if den < 2 * r then k + 1 else if 2 * r < den then k
    else if k % 2 = 0 then k else k + 1
  (m, 2 ^ s)

/-- ECMAScript Math.round on a nonnegative double n / d: the closest integer,
with halves rounded toward positive infinity. -/
def mathRound (p : ℕ × ℕ) : ℕ := (2 * p.1 + p.2) / (2 * p.2)

/-- The double-precision computation Math.round((c / t) * scale) exactly as the
scoring code performs it: one rounded division, one rounded multiplication by
the exactly representable integer scale, then Math.round. -/
def jsScaleScore (c t scale : ℕ) : ℕ :=
  mathRound (fl ((fl c t).1 * scale) (fl c t).2)

/-- Exact real-number rounding of num / den with halves up: the reading of
round(x) in the specification formulas. -/
def specRound (num den : ℕ) : ℕ := (2 * num + den) / (2 * den)

/-! ### Correctness of the binary64 rounding -/

lemma log2fuel_bounds : ∀ (f n : ℕ), 1 ≤ n → n ≤ f →
    2 ^ log2fuel f n ≤ n ∧ n < 2 ^ (log2fuel f n + 1) := by
  intro f
  induction f with
  | zero => intro n h1 h2; omega
  | succ f ih =>
    intro n h1 h2
    rw [log2fuel]
    by_cases h : n ≤ 1
    · simp only [if_pos h]
      constructor
      · simpa using h1
      · simpa using by omega
    · simp only [if_neg h]
      have hn2 : 1 ≤ n / 2 := by omega
      have hf : n / 2 ≤ f := by omega
      obtain ⟨ha, hb⟩ := ih (n / 2) hn2 hf
      have e1 : 2 ^ (log2fuel f (n / 2) + 1) = 2 * 2 ^ log2fuel f (n / 2) := by ring
      have e2 : 2 ^ (log2fuel f (n / 2) + 1 + 1) = 2 * 2 ^ (log2fuel f (n / 2) + 1) := by ring
      omega

lemma fl_spec (num den : ℕ) (h1 : 1 ≤ num) (h2 : 1 ≤ den)
    (h3 : den ≤ num * 2 ^ 64) (h4 : num < 2 ^ 53 * den) :
    ∃ s m : ℕ, fl num den = (m, 2 ^ s) ∧ s ≤ 116 ∧
      |(m : ℚ) / 2 ^ s - num / den| ≤ 1 / (2 * 2 ^ s) ∧
      (2 : ℚ) ^ 52 ≤ ((num : ℚ) / den) * 2 ^ s ∧
      ((num : ℚ) / den) * 2 ^ s ≤ 2 ^ 53 := by
  have hnum0 : num ≠ 0 := by omega
  set P := num * 2 ^ 64 with hP
  set Q := P / den with hQ
  set E := log2fuel P Q with hEdef
  have hden0 : 0 < den := by omega
  have hQ1 : 1 ≤ Q := (Nat.one_le_div_iff hden0).mpr h3
  have hQP : Q ≤ P := Nat.div_le_self _ _
  obtain ⟨hb1, hb2⟩ := log2fuel_bounds P Q hQ1 hQP
  rw [← hEdef] at hb1 hb2
  have hQlt : Q < 2 ^ 117 := by
    have hPlt : P < den * 2 ^ 117 := by
      have hmul : num * 2 ^ 64 < (2 ^ 53 * den) * 2 ^ 64 :=
        mul_lt_mul_of_pos_right h4 (by norm_num)
      calc P = num * 2 ^ 64 := rfl
        _ < (2 ^ 53 * den) * 2 ^ 64 := hmul
        _ = den * 2 ^ 117 := by ring
    exact Nat.div_lt_of_lt_mul hPlt
  have hE116 : E ≤ 116 := by
    by_contra hcon
    have : (2 : ℕ) ^ 117 ≤ 2 ^ E := Nat.pow_le_pow_right (by norm_num) (by omega)
    omega
  set s := 116 - E with hs
  have hsE : s + E = 116 := by omega
  set N := num * 2 ^ s with hN
  set k := N / den with hk
  set r := N % den with hr
  have hNdr : den * k + r = N := Nat.div_add_mod N den
  have hrlt : r < den := Nat.mod_lt _ hden0
  set m := (if den < 2 * r then k + 1 else if 2 * r < den then k
    else if k % 2 = 0 then k else k + 1) with hm
  have hflEq : fl num den = (m, 2 ^ s) := by
    simp only [fl, if_neg hnum0]
  have hdenQ : (0 : ℚ) < den := by exact_mod_cast hden0
  have h2sQ : (0 : ℚ) < 2 ^ s := by positivity
  have hNQ : (N : ℚ) = (num : ℚ) * 2 ^ s := by rw [hN]; push_cast; ring
  have hNc : (den : ℚ) * k + r = N := by exact_mod_cast hNdr
  have hrQ : (r : ℚ) < den := by exact_mod_cast hrlt
  have hrQ0 : (0 : ℚ) ≤ r := by positivity
  -- the significand is within half a unit of the exact scaled value
  have hmN : |2 * ((m : ℚ) * den - N)| ≤ den := by
    rw [hm]
    split_ifs with hA hB hC
    · have hAq : (den : ℚ) < 2 * r := by exact_mod_cast hA
      rw [abs_le]
      constructor <;> push_cast <;> linarith [hNc]
    · have hBq : 2 * (r : ℚ) < den := by exact_mod_cast hB
      rw [abs_le]
      constructor <;> push_cast <;> linarith [hNc]
    · have hBq : 2 * (r : ℚ) = den := by
        have h2r : 2 * r = den := by omega
        exact_mod_cast h2r
      rw [abs_le]
      constructor <;> push_cast <;> linarith [hNc]
    · have hBq : 2 * (r : ℚ) = den := by
        have h2r : 2 * r = den := by omega
        exact_mod_cast h2r
      rw [abs_le]
      constructor <;> push_cast <;> linarith [hNc]
  refine ⟨s, m, hflEq, by omega, ?_, ?_, ?_⟩
  · -- half-ulp error bound
    have key : (m : ℚ) / 2 ^ s - num / den = ((m : ℚ) * den - N) / (den * 2 ^ s) := by
      rw [hNQ]; field_simp; ring
    rw [key, abs_div, abs_of_pos (by positivity : (0 : ℚ) < den * 2 ^ s),
      div_le_div_iff (by positivity) (by positivity)]
    have habs2 : |2 * ((m : ℚ) * den - N)| = 2 * |(m : ℚ) * den - N| := by
      rw [abs_mul]; norm_num
    rw [habs2] at hmN
    have hstep := mul_le_mul_of_nonneg_right hmN (le_of_lt h2sQ)
    nlinarith [hstep]
  · -- lower bound: the value is at least 2 ^ 52 ulps
    have hQfloor : (Q : ℚ) ≤ (P : ℚ) / den := by
      rw [hQ]; exact_mod_cast Nat.cast_div_le
    have hb1Q : (2 : ℚ) ^ E ≤ Q := by exact_mod_cast hb1
    have hPQden : (P : ℚ) / den = ((num : ℚ) / den) * 2 ^ 64 := by
      rw [hP]; push_cast; ring
    have hstep : (2 : ℚ) ^ E * 2 ^ s ≤ (((num : ℚ) / den) * 2 ^ 64) * 2 ^ s := by
      apply mul_le_mul_of_nonneg_right _ (le_of_lt h2sQ)
      calc (2 : ℚ) ^ E ≤ Q := hb1Q
        _ ≤ (P : ℚ) / den := hQfloor
        _ = ((num : ℚ) / den) * 2 ^ 64 := hPQden
    have hEs : (2 : ℚ) ^ E * 2 ^ s = 2 ^ 116 := by
      rw [← pow_add]; congr 1; omega
    have h5264 : (2 : ℚ) ^ 52 * 2 ^ 64 = 2 ^ 116 := by norm_num
    have hchain : (2 : ℚ) ^ 52 * 2 ^ 64 ≤ (((num : ℚ) / den) * 2 ^ s) * 2 ^ 64 := by
      calc (2 : ℚ) ^ 52 * 2 ^ 64 = 2 ^ 116 := h5264
        _ = 2 ^ E * 2 ^ s := hEs.symm
        _ ≤ (((num : ℚ) / den) * 2 ^ 64) * 2 ^ s := hstep
        _ = (((num : ℚ) / den) * 2 ^ s) * 2 ^ 64 := by ring
    exact le_of_mul_le_mul_right hchain (by positivity)
  · -- upper bound: the value is below 2 ^ 53 ulps
    have hQfl : Q = Nat.floor ((P : ℚ) / den) := by
      rw [hQ, Nat.floor_div_nat, Nat.floor_natCast]
    have hQlt1 : (P : ℚ) / den < Q + 1 := by
      rw [hQfl]; exact Nat.lt_floor_add_one _
    have hb2Q : (Q : ℚ) + 1 ≤ 2 ^ (E + 1) := by exact_mod_cast hb2
    have hPQden : (P : ℚ) / den = ((num : ℚ) / den) * 2 ^ 64 := by
      rw [hP]; push_cast; ring
    have hstep : (((num : ℚ) / den) * 2 ^ 64) * 2 ^ s ≤ (2 : ℚ) ^ (E + 1) * 2 ^ s := by
      apply mul_le_mul_of_nonneg_right _ (le_of_lt h2sQ)
      calc ((num : ℚ) / den) * 2 ^ 64 = (P : ℚ) / den := hPQden.symm
        _ ≤ (Q : ℚ) + 1 := le_of_lt hQlt1
        _ ≤ 2 ^ (E + 1) := hb2Q
    have hEs : (2 : ℚ) ^ (E + 1) * 2 ^ s = 2 ^ 117 := by
      rw [← pow_add]; congr 1; omega
    have h5364 : (2 : ℚ) ^ 53 * 2 ^ 64 = 2 ^ 117 := by norm_num
    have hchain : (((num : ℚ) / den) * 2 ^ s) * 2 ^ 64 ≤ (2 : ℚ) ^ 53 * 2 ^ 64 := by
      calc (((num : ℚ) / den) * 2 ^ s) * 2 ^ 64
          = (((num : ℚ) / den) * 2 ^ 64) * 2 ^ s := by ring
        _ ≤ (2 : ℚ) ^ (E + 1) * 2 ^ s := hstep
        _ = 2 ^ 117 := hEs
        _ = (2 : ℚ) ^ 53 * 2 ^ 64 := h5364.symm
    exact le_of_mul_le_mul_right hchain (by positivity)

lemma mathRound_eq_floor (n d : ℕ) (hd : 0 < d) :
    mathRound (n, d) = Nat.floor ((n : ℚ) / d + 1 / 2) := by
  have h1 : (n : ℚ) / d + 1 / 2 = ((2 * n + d : ℕ) : ℚ) / ((2 * d : ℕ) : ℚ) := by
    have hdQ : (d : ℚ) ≠ 0 := by positivity
    push_cast
    field_simp
    ring
  rw [mathRound, h1, Nat.floor_div_nat, Nat.floor_natCast]

lemma floor_stable (A B : ℕ) (v : ℚ) (hB : 0 < B) (hv : 0 ≤ v)
    (hclose : |v + 1 / 2 - (A : ℚ) / B| < 1 / B) (hntie : A % B ≠ 0) :
    Nat.floor (v + 1 / 2) = A / B := by
  have hKR : B * (A / B) + A % B = A := Nat.div_add_mod A B
  have hR1 : 1 ≤ A % B := by omega
  have hRB : A % B < B := Nat.mod_lt _ hB
  have hBQ : (0 : ℚ) < B := by exact_mod_cast hB
  have hcast : (B : ℚ) * ((A / B : ℕ) : ℚ) + ((A % B : ℕ) : ℚ) = (A : ℚ) := by
    exact_mod_cast hKR
  have hABQ : (A : ℚ) / B = ((A / B : ℕ) : ℚ) + ((A % B : ℕ) : ℚ) / B := by
    field_simp
    linarith [hcast]
  have habs := abs_lt.mp hclose
  have hRQ1 : (1 : ℚ) ≤ ((A % B : ℕ) : ℚ) := by exact_mod_cast hR1
  have hRQB : ((A % B : ℕ) : ℚ) + 1 ≤ (B : ℚ) := by exact_mod_cast hRB
  have hlow : (1 : ℚ) / B ≤ ((A % B : ℕ) : ℚ) / B := by gcongr
  have hup : ((A % B : ℕ) : ℚ) / B + 1 / B ≤ 1 := by
    rw [div_add_div_same, div_le_one hBQ]
    linarith [hRQB]
  rw [Nat.floor_eq_iff (by linarith)]
  constructor
  · linarith [habs.1, hlow]
  · linarith [habs.2, hup]

lemma floor_stable_tie (A B : ℕ) (v : ℚ) (hB : 0 < B) (hv : 0 ≤ v)
    (hclose : |v + 1 / 2 - (A : ℚ) / B| < 1 / 2) (htie : A % B = 0) :
    Nat.floor (v + 1 / 2) = A / B ∨ Nat.floor (v + 1 / 2) + 1 = A / B := by
  have hKR : B * (A / B) + A % B = A := Nat.div_add_mod A B
  have hBQ : (0 : ℚ) < B := by exact_mod_cast hB
  have hcast : (B : ℚ) * ((A / B : ℕ) : ℚ) = (A : ℚ) := by
    have h0 : B * (A / B) = A := by
      rw [mul_comm]
      exact Nat.div_mul_cancel (Nat.dvd_of_mod_eq_zero htie)
    exact_mod_cast h0
  have hABQ : (A : ℚ) / B = ((A / B : ℕ) : ℚ) := by
    field_simp
    linarith [hcast]
  rw [hABQ] at hclose
  have habs := abs_lt.mp hclose
  by_cases hcase : ((A / B : ℕ) : ℚ) ≤ v + 1 / 2
  · left
    rw [Nat.floor_eq_iff (by linarith)]
    exact ⟨hcase, by linarith [habs.2]⟩
  · right
    push_neg at hcase
    have hK1 : 1 ≤ A / B := by
      by_contra hcon
      have hz : A / B = 0 := Nat.lt_one_iff.mp (Nat.not_le.mp hcon)
      rw [hz] at hcase
      push_cast at hcase
      linarith
    have hKm : ((A / B - 1 : ℕ) : ℚ) = ((A / B : ℕ) : ℚ) - 1 := by
      push_cast [hK1]
      ring
    have hfl : Nat.floor (v + 1 / 2) = A / B - 1 := by
      rw [Nat.floor_eq_iff (by linarith), hKm]
      constructor
      · linarith [habs.1]
      · linarith
    omega

/-- The double-precision score Math.round((c / t) * scale) agrees with exact
rounding of c * scale / t, except possibly when c * scale / t is exactly a
half-integer, where the floating-point result can be one lower. -/
lemma jsScale_agree (c t scale : ℕ) (ht : 0 < t) (hct : c ≤ t)
    (hsc1 : 0 < scale) (hsc2 : scale ≤ 495) (htB : t ≤ 100000) :
    jsScaleScore c t scale = specRound (c * scale) t ∨
      ((2 * (c * scale) + t) % (2 * t) = 0 ∧
        jsScaleScore c t scale + 1 = specRound (c * scale) t) := by
  rcases Nat.eq_zero_or_pos c with hc0 | hc1
  · left
    subst hc0
    have hfl0 : ∀ d : ℕ, fl 0 d = (0, 1) := fun d => by unfold fl; simp
    have h1 : jsScaleScore 0 t scale = 0 := by
      show mathRound (fl ((fl 0 t).1 * scale) (fl 0 t).2) = 0
      rw [hfl0 t]
      norm_num [hfl0 1, mathRound]
    have h2 : specRound (0 * scale) t = 0 := by
      have hlt : 2 * (0 * scale) + t < 2 * t := by omega
      exact Nat.div_eq_of_lt hlt
    rw [h1, h2]
  -- from here on 1 ≤ c, so every intermediate value is positive
  have htQ : (0 : ℚ) < t := by exact_mod_cast ht
  have hcQ : (0 : ℚ) < c := by exact_mod_cast hc1
  obtain ⟨s1, m1, hfl1, hs1le, herr1, hlb1, hub1⟩ :=
    fl_spec c t hc1 (by omega)
      (by nlinarith [htB, hc1] : t ≤ c * 2 ^ 64)
      (by nlinarith [hct, ht] : c < 2 ^ 53 * t)
  have h2s1Q : (0 : ℚ) < 2 ^ s1 := by positivity
  have hq1 : (c : ℚ) / t ≤ 1 := by
    rw [div_le_one htQ]
    exact_mod_cast hct
  have hq0 : (0 : ℚ) < (c : ℚ) / t := by positivity
  -- translate the half-ulp bound of the first rounding into a relative bound
  have hulp1 : 1 / (2 * (2 : ℚ) ^ s1) ≤ ((c : ℚ) / t) / 2 ^ 53 := by
    rw [div_le_div_iff (by positivity) (by positivity)]
    nlinarith [hlb1]
  have herr1r : |(m1 : ℚ) / 2 ^ s1 - (c : ℚ) / t| ≤ ((c : ℚ) / t) / 2 ^ 53 :=
    le_trans herr1 hulp1
  have habs1 := abs_le.mp herr1r
  have hsmall1 : ((c : ℚ) / t) / 2 ^ 53 ≤ ((c : ℚ) / t) / 2 := by gcongr <;> norm_num
  have hv1pos : (0 : ℚ) < (m1 : ℚ) / 2 ^ s1 := by
    nlinarith [habs1.1, hsmall1, hq0]
  have hm1pos : 1 ≤ m1 := by
    by_contra hcon
    have hz : m1 = 0 := by omega
    rw [hz] at hv1pos
    norm_num at hv1pos
  -- bounds on the first significand
  have hm1ub : (m1 : ℚ) ≤ ((c : ℚ) / t) * 2 ^ s1 + 1 / 2 := by
    have h2 : (m1 : ℚ) / 2 ^ s1 ≤ (c : ℚ) / t + 1 / (2 * 2 ^ s1) := by
      linarith [(abs_le.mp herr1).2]
    have h3 := mul_le_mul_of_nonneg_right h2 (le_of_lt h2s1Q)
    have h4 : (m1 : ℚ) / 2 ^ s1 * 2 ^ s1 = m1 := by field_simp
    have h5 : ((c : ℚ) / t + 1 / (2 * 2 ^ s1)) * 2 ^ s1
        = ((c : ℚ) / t) * 2 ^ s1 + 1 / 2 := by field_simp; ring
    linarith [h3, h4, h5]
  have hm1lb : (2 : ℚ) ^ 51 ≤ (m1 : ℚ) := by
    have h2 : (c : ℚ) / t - 1 / (2 * 2 ^ s1) ≤ (m1 : ℚ) / 2 ^ s1 := by
      linarith [(abs_le.mp herr1).1]
    have h3 := mul_le_mul_of_nonneg_right h2 (le_of_lt h2s1Q)
    have h4 : (m1 : ℚ) / 2 ^ s1 * 2 ^ s1 = m1 := by field_simp
    have h5 : ((c : ℚ) / t - 1 / (2 * 2 ^ s1)) * 2 ^ s1
        = ((c : ℚ) / t) * 2 ^ s1 - 1 / 2 := by field_simp; ring
    have hpows : (2 : ℚ) ^ 51 ≤ 2 ^ 52 - 1 / 2 := by norm_num
    linarith [h3, h4, h5, hlb1, hpows]
  -- natural-number bounds needed for the second rounding
  have hm1ubN : m1 ≤ 2 ^ s1 := by
    have hq2 : ((c : ℚ) / t) * 2 ^ s1 ≤ 2 ^ s1 := by nlinarith [hq1, h2s1Q]
    have hlt : (m1 : ℚ) < ((2 ^ s1 + 1 : ℕ) : ℚ) := by push_cast; linarith [hm1ub]
    have hltN : m1 < 2 ^ s1 + 1 := by exact_mod_cast hlt
    omega
  have hm1lbN : 2 ^ 51 ≤ m1 := by
    have hc : ((2 ^ 51 : ℕ) : ℚ) ≤ (m1 : ℚ) := by push_cast; linarith [hm1lb]
    exact_mod_cast hc
  have hs1ub : (2 : ℕ) ^ s1 ≤ 2 ^ 53 * t := by
    have hQ1 : ((2 : ℚ) ^ s1) * c ≤ 2 ^ 53 * t := by
      have h := mul_le_mul_of_nonneg_right hub1 (le_of_lt htQ)
      have h2 : ((c : ℚ) / t) * 2 ^ s1 * t = (2 : ℚ) ^ s1 * c := by
        field_simp; ring
      linarith [h, h2]
    have hc1Q : (1 : ℚ) ≤ c := by exact_mod_cast hc1
    have hQ2 : ((2 : ℚ) ^ s1) ≤ 2 ^ 53 * t := by nlinarith [hc1Q, h2s1Q, hQ1]
    exact_mod_cast hQ2
  have harg3 : (2 : ℕ) ^ s1 ≤ m1 * scale * 2 ^ 64 := by
    calc (2 : ℕ) ^ s1 ≤ 2 ^ 53 * t := hs1ub
      _ ≤ 2 ^ 53 * 100000 := Nat.mul_le_mul_left _ htB
      _ ≤ (2 ^ 51 * 1) * 2 ^ 64 := by norm_num
      _ ≤ (m1 * scale) * 2 ^ 64 :=
          Nat.mul_le_mul_right _ (Nat.mul_le_mul hm1lbN hsc1)
  have harg4 : m1 * scale < 2 ^ 53 * 2 ^ s1 := by
    have hstep : m1 * scale ≤ 2 ^ s1 * 495 := Nat.mul_le_mul hm1ubN hsc2
    have hpos : 0 < (2 : ℕ) ^ s1 := Nat.pos_pow_of_pos _ (by norm_num)
    nlinarith [hstep, hpos]
  obtain ⟨s2, m2, hfl2, hs2le, herr2, hlb2, hub2⟩ :=
    fl_spec (m1 * scale) (2 ^ s1) (Nat.mul_pos hm1pos hsc1) (Nat.one_le_two_pow)
      harg3 harg4
  push_cast at herr2 hlb2 hub2
  have h2s2Q : (0 : ℚ) < 2 ^ s2 := by positivity
  have hscQ : (0 : ℚ) < scale := by exact_mod_cast hsc1
  have hscQ2 : (scale : ℚ) ≤ 495 := by exact_mod_cast hsc2
  -- relative bound for the second rounding
  have hulp2 : 1 / (2 * (2 : ℚ) ^ s2) ≤ ((m1 : ℚ) * scale / 2 ^ s1) / 2 ^ 53 := by
    rw [div_le_div_iff (by positivity) (by positivity)]
    nlinarith [hlb2]
  have herr2r : |(m2 : ℚ) / 2 ^ s2 - (m1 : ℚ) * scale / 2 ^ s1|
      ≤ ((m1 : ℚ) * scale / 2 ^ s1) / 2 ^ 53 :=
    le_trans herr2 hulp2
  -- the second input is at most 990
  have hv1ub : (m1 : ℚ) / 2 ^ s1 ≤ 2 := by
    linarith [habs1.2, hq1, hsmall1, hq0]
  have hX990 : (m1 : ℚ) * scale / 2 ^ s1 ≤ 990 := by
    have hXe : (m1 : ℚ) * scale / 2 ^ s1 = ((m1 : ℚ) / 2 ^ s1) * scale := by ring
    rw [hXe]
    nlinarith [hv1ub, hscQ, hscQ2]
  -- total error of the computed double against the exact value
  have hscale_err : |(m1 : ℚ) * scale / 2 ^ s1 - (c : ℚ) * scale / t|
      ≤ (((c : ℚ) / t) / 2 ^ 53) * scale := by
    have h1 : (m1 : ℚ) * scale / 2 ^ s1 - (c : ℚ) * scale / t
        = ((m1 : ℚ) / 2 ^ s1 - (c : ℚ) / t) * scale := by ring
    rw [h1, abs_mul, abs_of_pos hscQ]
    exact mul_le_mul_of_nonneg_right herr1r (le_of_lt hscQ)
  have htotal : |(m2 : ℚ) / 2 ^ s2 - (c : ℚ) * scale / t| ≤ 1485 / 2 ^ 53 := by
    have htri := abs_sub_le ((m2 : ℚ) / 2 ^ s2) ((m1 : ℚ) * scale / 2 ^ s1)
      ((c : ℚ) * scale / t)
    have hb1 : ((m1 : ℚ) * scale / 2 ^ s1) / 2 ^ 53 ≤ (990 : ℚ) / 2 ^ 53 := by
      gcongr
    have hb2 : (((c : ℚ) / t) / 2 ^ 53) * scale ≤ (495 : ℚ) / 2 ^ 53 := by
      nlinarith [hq1, hq0, hscQ, hscQ2]
    have hsum : (990 : ℚ) / 2 ^ 53 + 495 / 2 ^ 53 = 1485 / 2 ^ 53 := by ring
    linarith [herr2r, hscale_err, htri, hb1, hb2, hsum]
  -- compare the two roundings
  have hvnn : (0 : ℚ) ≤ (m2 : ℚ) / 2 ^ s2 := by positivity
  have hjs : jsScaleScore c t scale = mathRound (m2, 2 ^ s2) := by
    show mathRound (fl ((fl c t).1 * scale) (fl c t).2) = mathRound (m2, 2 ^ s2)
    rw [hfl1]
    exact congrArg mathRound hfl2
  have hABx : ((2 * (c * scale) + t : ℕ) : ℚ) / ((2 * t : ℕ) : ℚ)
      = (c : ℚ) * scale / t + 1 / 2 := by
    push_cast
    field_simp
    ring
  have hclose : |(m2 : ℚ) / 2 ^ s2 + 1 / 2
      - ((2 * (c * scale) + t : ℕ) : ℚ) / ((2 * t : ℕ) : ℚ)| ≤ 1485 / 2 ^ 53 := by
    rw [hABx]
    have he : (m2 : ℚ) / 2 ^ s2 + 1 / 2 - ((c : ℚ) * scale / t + 1 / 2)
        = (m2 : ℚ) / 2 ^ s2 - (c : ℚ) * scale / t := by ring
    rw [he]
    exact htotal
  have hspec : specRound (c * scale) t = (2 * (c * scale) + t) / (2 * t) := rfl
  have hBpos : 0 < 2 * t := by omega
  rw [hjs, mathRound_eq_floor _ _ (by positivity), hspec]
  simp only [Nat.cast_pow, Nat.cast_ofNat]
  by_cases htie : (2 * (c * scale) + t) % (2 * t) = 0
  · rcases floor_stable_tie (2 * (c * scale) + t) (2 * t) ((m2 : ℚ) / 2 ^ s2)
      hBpos hvnn (lt_of_le_of_lt hclose (by norm_num)) htie with h | h
    · exact Or.inl h
    · exact Or.inr ⟨htie, h⟩
  · left
    apply floor_stable (2 * (c * scale) + t) (2 * t) ((m2 : ℚ) / 2 ^ s2)
      hBpos hvnn _ htie
    have hBle : ((2 * t : ℕ) : ℚ) ≤ 200000 := by
      exact_mod_cast (by omega : 2 * t ≤ 200000)
    have hBQ0 : (0 : ℚ) < ((2 * t : ℕ) : ℚ) := by exact_mod_cast hBpos
    have hinv : (1 : ℚ) / 200000 ≤ 1 / ((2 * t : ℕ) : ℚ) := by gcongr
    calc |(m2 : ℚ) / 2 ^ s2 + 1 / 2
        - ((2 * (c * scale) + t : ℕ) : ℚ) / ((2 * t : ℕ) : ℚ)|
        ≤ 1485 / 2 ^ 53 := hclose
      _ < 1 / 200000 := by norm_num
      _ ≤ 1 / ((2 * t : ℕ) : ℚ) := hinv

/-! ### Scoring functions of the repository -/

/-- Modelled from the spec: the module src/utils/toeic-score-conversion.ts
(convertListeningScore) is imported by question.repository.ts line 337 and by
test-scoring-comparison.ts but its source is not among the provided files.
Spec section 4.3: a fixed, monotonically non-decreasing lookup curve with
100 correct mapping to 495 and 0 correct mapping to a fixed floor of 5,
never 0.  The curve below realises exactly those constraints. -/
def convertListeningScore (raw : ℕ) : ℕ := min 495 (5 + 5 * raw)

/-- Modelled from the spec: reading-side conversion curve of
src/utils/toeic-score-conversion.ts, same constraints as the listening one
(spec section 4.3). -/
def convertReadingScore (raw : ℕ) : ℕ := min 495 (5 + 5 * raw)

/-- question.repository.ts lines 424-435: PRACTICE_BY_PART per-skill score.
listeningPercent is correct / total when total > 0 and the double 0
otherwise, and the score is Math.round(percent * 495), all in binary64. -/
def practiceSkillScore (correct total : ℕ) : ℕ :=
  if 0 < total then jsScaleScore correct total 495 else 0

/-- question.repository.ts lines 377-379: overall percentage score.
totalCount is defaulted to 1 when the SELECT yields 0 rows, and
scorePercent = Math.round((correct / total) * 100) in binary64. -/
def scorePercentOf (correct total : ℕ) : ℕ :=
  jsScaleScore correct (if total = 0 then 1 else total) 100

/-! ### Data model: the entity fields the grading engine reads -/

structure MediaQuestion where
  ID : ℕ
  Skill : Option String
  Type_ : Option String
  Section : Option String
  AudioUrl : Option String
  ImageUrl : Option String
deriving DecidableEq

structure Question where
  ID : ℕ
  QuestionText : Option String
  MediaQuestionID : Option ℕ
deriving DecidableEq

structure Choice where
  ID : ℕ
  QuestionID : ℕ
  Attribute : Option String
  Content : Option String
  IsCorrect : Bool
deriving DecidableEq

structure AttemptAnswer where
  ID : ℕ
  AttemptID : ℕ
  QuestionID : ℕ
  ChoiceID : Option ℕ
  IsCorrect : Bool
deriving DecidableEq

/-- Attempt row; the Type column holds FULL_TEST or PRACTICE_BY_PART and is
embedded as Type_ because Type is reserved in Lean. -/
structure Attempt where
  ID : ℕ
  Type_ : String
  ExamID : ℕ
  StartedAt : ℕ
  SubmittedAt : Option ℕ
  ScorePercent : ℕ
  ScoreListening : ℕ
  ScoreReading : ℕ
deriving DecidableEq

structure DB where
  questions : List Question
  mediaQuestions : List MediaQuestion
  choices : List Choice
  attempts : List Attempt
  attemptAnswers : List AttemptAnswer
deriving DecidableEq

/-! ### recalculateAttemptScores (question.repository.ts lines 335-464) -/

/-- The skill of the question an answer references, following the SQL
INNER JOIN question, INNER JOIN mediaquestion of lines 382-404: an answer
whose question or media row is missing joins to nothing and is counted in
neither skill. -/
def answerSkill (db : DB) (aa : AttemptAnswer) : Option String :=
  match db.questions.find? (fun q => q.ID == aa.QuestionID) with
  | none => none
  | some q =>
    match q.MediaQuestionID with
    | none => none
    | some mid =>
      match db.mediaQuestions.find? (fun mq => mq.ID == mid) with
      | none => none
      | some mq => mq.Skill

/-- All answer rows of one attempt (WHERE AttemptID = ?). -/
def answersOf (db : DB) (attemptId : ℕ) : List AttemptAnswer :=
  db.attemptAnswers.filter (fun aa => aa.AttemptID == attemptId)

def overallCorrect (db : DB) (attemptId : ℕ) : ℕ :=
  ((answersOf db attemptId).filter (fun aa => aa.IsCorrect)).length

def overallTotal (db : DB) (attemptId : ℕ) : ℕ :=
  (answersOf db attemptId).length

def skillTotal (db : DB) (attemptId : ℕ) (skill : String) : ℕ :=
  ((answersOf db attemptId).filter
    (fun aa => answerSkill db aa == some skill)).length

def skillCorrect (db : DB) (attemptId : ℕ) (skill : String) : ℕ :=
  (((answersOf db attemptId).filter
    (fun aa => answerSkill db aa == some skill)).filter
      (fun aa => aa.IsCorrect)).length

/-- One iteration of the per-attempt loop (lines 367-462): recompute the
three score columns of one affected attempt from its current answer rows
and write them back; every other column of the attempt row is untouched.
The regime is selected by the attempt Type: FULL_TEST uses the conversion
tables on the raw per-skill counts, anything else uses the percentage
formula scaled to 495. -/
def recalcAttempt (db : DB) (a : Attempt) : Attempt :=
  { a with
    ScorePercent := scorePercentOf (overallCorrect db a.ID) (overallTotal db a.ID)
    ScoreListening :=
      if a.Type_ == "FULL_TEST" then
        convertListeningScore (skillCorrect db a.ID "LISTENING")
      else
        practiceSkillScore (skillCorrect db a.ID "LISTENING")
          (skillTotal db a.ID "LISTENING")
    ScoreReading :=
      if a.Type_ == "FULL_TEST" then
        convertReadingScore (skillCorrect db a.ID "READING")
      else
        practiceSkillScore (skillCorrect db a.ID "READING")
          (skillTotal db a.ID "READING") }

/-- SELECT DISTINCT of lines 355-360: an attempt is affected when one of its
answer rows references the edited question. -/
def isAffected (db : DB) (questionId : ℕ) (a : Attempt) : Bool :=
  db.attemptAnswers.any (fun aa => aa.AttemptID == a.ID && aa.QuestionID == questionId)

/-- recalculateAttemptScores on the success path: if the question is missing
the method logs a warning and returns with no change; otherwise every
affected attempt gets its three score columns rewritten from its current
answer rows.  Nothing else in the database is written. -/
def recalculateAttemptScores (questionId : ℕ) (db : DB) : DB :=
  match db.questions.find? (fun q => q.ID == questionId) with
  | none => db
  | some _ =>
    { db with
      attempts := db.attempts.map (fun a =>
        if isAffected db questionId a then recalcAttempt db a else a) }

/-- The transactional behaviour of recalculateAttemptScores in the presence
of per-attempt failures: the source wraps the entire cascade in a single
AppDataSource.transaction (line 339) and has no try/catch around the
per-attempt loop, so an error raised while repairing any affected attempt
propagates out and rolls back the whole transaction; no attempt keeps a
repaired score.  The oracle fails says which attempt repairs raise. -/
def recalculateWithFailures (fails : ℕ → Bool) (questionId : ℕ) (db : DB) : DB :=
  match db.questions.find? (fun q => q.ID == questionId) with
  | none => db
  | some _ =>
    if db.attempts.any (fun a => isAffected db questionId a && fails a.ID) then db
    else recalculateAttemptScores questionId db

/-! ### QuestionRepository.update, choice upsert block (lines 232-313) -/

/-- One element of the choicesData payload of update.  IsCorrect is the
boolean flag the edit supplies; Attribute and Content may be absent, in
which case TypeORM leaves the stored column unchanged. -/
structure ChoicePayload where
  ID : Option ℕ
  Attribute : Option String
  Content : Option String
  IsCorrect : Bool
deriving DecidableEq

/-- JavaScript truthiness of choicePayload.ID (line 244): an absent ID and
the number 0 both select the create branch. -/
def payloadId (p : ChoicePayload) : Option ℕ :=
  match p.ID with
  | some i => if i == 0 then none else some i
  | none => none

/-- The slice of database state the choice-upsert block reads and writes,
plus the auto-increment counter for newly inserted choices. -/
structure QState where
  choices : List Choice
  attemptAnswers : List AttemptAnswer
  nextChoiceId : ℕ
deriving DecidableEq

/-- Applying one stored column update as manager.update(Choice, cid, ...)
does (lines 252-260): present payload columns overwrite, absent ones are
skipped by TypeORM, and IsCorrect is always written. -/
def applyChoiceUpdate (p : ChoicePayload) (c : Choice) : Choice :=
  { c with
    Attribute := match p.Attribute with | some v => some v | none => c.Attribute
    Content := match p.Content with | some v => some v | none => c.Content
    IsCorrect := p.IsCorrect }

/-- Whether one payload item flips the stored correctness of the choice it
addresses: oldChoice is looked up in the snapshot of stored choices and its
IsCorrect flag is compared with the payload flag (lines 249-250). -/
def changedFlag (existing : List Choice) (q : ChoicePayload) (d : ℕ) : Bool :=
  match existing.find? (fun c => c.ID == d) with
  | some oc => oc.IsCorrect != q.IsCorrect
  | none => false

/-- One iteration of the payload loop of update (lines 243-288).  existing
is the snapshot of the question choices loaded before the loop (line 235);
the accumulated payloadIds set is threaded through.  A payload item with a
truthy ID updates the choice row with that primary key and, when the
IsCorrect flag differs from the snapshot value, also rewrites IsCorrect on
every AttemptAnswer row whose ChoiceID is that key (lines 263-279).  An item
without a truthy ID inserts a fresh choice for the question. -/
def updStep (existing : List Choice) (questionId : ℕ) :
    QState × List ℕ → ChoicePayload → QState × List ℕ
  | (st, pids), p =>
    match payloadId p with
    | some cid =>
      let isCorrectChanged := changedFlag existing p cid
      let choices1 := st.choices.map (fun c =>
        if c.ID == cid then applyChoiceUpdate p c else c)
      let answers1 :=
        if isCorrectChanged then
          st.attemptAnswers.map (fun aa =>
            if aa.ChoiceID == some cid then { aa with IsCorrect := p.IsCorrect } else aa)
        else st.attemptAnswers
      ({ st with choices := choices1, attemptAnswers := answers1 }, cid :: pids)
    | none =>
      let newChoice : Choice :=
        { ID := st.nextChoiceId, QuestionID := questionId,
          Attribute := p.Attribute, Content := p.Content, IsCorrect := p.IsCorrect }
      ({ st with
          choices := st.choices ++ [newChoice]
          nextChoiceId := st.nextChoiceId + 1 }, pids)

/-- One iteration of the deletion loop of update (lines 292-312): a snapshot
choice whose ID is not among the payload IDs is deleted only when no
AttemptAnswer row references it; otherwise it is kept. -/
def deleteStep (pids : List ℕ) (st : QState) (c : Choice) : QState :=
  if pids.contains c.ID then st
  else if st.attemptAnswers.any (fun aa => aa.ChoiceID == some c.ID) then st
  else { st with choices := st.choices.filter (fun c2 => c2.ID != c.ID) }

/-- The choicesData branch of QuestionRepository.update (lines 232-313):
snapshot the stored choices of the question, run the upsert loop over the
payload, then run the deletion loop over the snapshot. -/
def updateChoices (questionId : ℕ) (choicesData : List ChoicePayload)
    (st : QState) : QState :=
  let existing := st.choices.filter (fun c => c.QuestionID == questionId)
  let r := choicesData.foldl (updStep existing questionId) (st, [])
  existing.foldl (deleteStep r.2) r.1

/-! ### ExamService.getExamById and its response transformation -/

structure ExamType where
  ID : ℕ
  Code : String
  Description : Option String
deriving DecidableEq

/-- A question as loaded inside an exam: choices and media are eager. -/
structure ExamQ where
  ID : ℕ
  QuestionText : Option String
  choices : List Choice
  mediaQuestion : MediaQuestion
deriving DecidableEq

/-- One examQuestions junction row with its eager question relation. -/
structure ExamQuestionRow where
  QuestionID : ℕ
  OrderIndex : ℕ
  question : ExamQ
deriving DecidableEq

structure Exam where
  ID : ℕ
  Title : String
  TimeExam : ℕ
  Type_ : Option String
  examType : ExamType
  examQuestions : Option (List ExamQuestionRow)
deriving DecidableEq

/-- The choice shape of the response: ID, Attribute and Content only.  The
DTO deliberately has no IsCorrect field (exam.service.ts line 495). -/
structure ChoiceDetailDto where
  ID : ℕ
  Attribute : String
  Content : String
deriving DecidableEq

structure MediaDto where
  Skill : String
  Type_ : Option String
  Section : String
  AudioUrl : Option String
  ImageUrl : Option String
deriving DecidableEq

structure QuestionDetailDto where
  ID : ℕ
  OrderIndex : ℕ
  QuestionText : String
  Choices : List ChoiceDetailDto
  Media : MediaDto
deriving DecidableEq

structure ExamTypeDto where
  ID : ℕ
  Code : String
  Description : String
deriving DecidableEq

structure ExamDetailResponseDto where
  ID : ℕ
  Title : String
  TimeExam : ℕ
  Type_ : String
  ExamType : ExamTypeDto
  Questions : List QuestionDetailDto
deriving DecidableEq

/-- The comparator (a, b) => a.OrderIndex - b.OrderIndex of line 486 sorts
ascending by OrderIndex; Array.prototype.sort is stable (ES2019), embedded
as the stable insertion sort on the same key. -/
def byOrderIndex (a b : ExamQuestionRow) : Prop := a.OrderIndex ≤ b.OrderIndex

instance : DecidableRel byOrderIndex := fun a b => Nat.decLe a.OrderIndex b.OrderIndex

/-- The per-question mapping of transformToExamDetailResponse
(lines 487-504): choices keep only ID, Attribute and Content. -/
def toQuestionDetail (eq : ExamQuestionRow) : QuestionDetailDto :=
  { ID := eq.question.ID
    OrderIndex := eq.OrderIndex
    QuestionText := eq.question.QuestionText.getD ""
    Choices := eq.question.choices.map (fun choice =>
      { ID := choice.ID
        Attribute := choice.Attribute.getD ""
        Content := choice.Content.getD "" })
    Media :=
      { Skill := eq.question.mediaQuestion.Skill.getD ""
        Type_ := eq.question.mediaQuestion.Type_
        Section := eq.question.mediaQuestion.Section.getD ""
        AudioUrl := eq.question.mediaQuestion.AudioUrl
        ImageUrl := eq.question.mediaQuestion.ImageUrl } }

/-- transformToExamDetailResponse (exam.service.ts lines 473-507). -/
def transformToExamDetailResponse (exam : Exam) : ExamDetailResponseDto :=
  { ID := exam.ID
    Title := exam.Title
    TimeExam := exam.TimeExam
    Type_ := exam.Type_.getD ""
    ExamType :=
      { ID := exam.examType.ID
        Code := exam.examType.Code
        Description := exam.examType.Description.getD "" }
    Questions :=
      match exam.examQuestions with
      | some eqs => (eqs.insertionSort byOrderIndex).map toQuestionDetail
      | none => [] }

/-- getExamById (exam.service.ts lines 131-141): load by primary key, throw
when absent, otherwise transform. -/
def getExamById (exams : List Exam) (examId : ℕ) :
    Except String ExamDetailResponseDto :=
  match exams.find? (fun e => e.ID == examId) with
  | none => Except.error "Exam not found"
  | some exam => Except.ok (transformToExamDetailResponse exam)

/-- Forgetting which choice of each question is marked correct: the
observational equivalence used to state that getExamById leaks nothing
about correct answers. -/
def eraseChoiceCorrectness (c : Choice) : Choice := { c with IsCorrect := false }

def eraseExamQ (q : ExamQ) : ExamQ :=
  { q with choices := q.choices.map eraseChoiceCorrectness }

def eraseRow (eq : ExamQuestionRow) : ExamQuestionRow :=
  { eq with question := eraseExamQ eq.question }

def eraseExamCorrectness (e : Exam) : Exam :=
  { e with examQuestions := e.examQuestions.map (fun l => l.map eraseRow) }

/-! ### Helper lemmas about the recalculation cascade -/

lemma recalc_questions (questionId : ℕ) (db : DB) :
    (recalculateAttemptScores questionId db).questions = db.questions := by
  unfold recalculateAttemptScores
  cases h : db.questions.find? (fun q => q.ID == questionId) <;> rfl

lemma recalc_media (questionId : ℕ) (db : DB) :
    (recalculateAttemptScores questionId db).mediaQuestions = db.mediaQuestions := by
  unfold recalculateAttemptScores
  cases h : db.questions.find? (fun q => q.ID == questionId) <;> rfl

lemma recalc_choices (questionId : ℕ) (db : DB) :
    (recalculateAttemptScores questionId db).choices = db.choices := by
  unfold recalculateAttemptScores
  cases h : db.questions.find? (fun q => q.ID == questionId) <;> rfl

lemma recalc_answers (questionId : ℕ) (db : DB) :
    (recalculateAttemptScores questionId db).attemptAnswers = db.attemptAnswers := by
  unfold recalculateAttemptScores
  cases h : db.questions.find? (fun q => q.ID == questionId) <;> rfl

lemma recalcAttempt_ID (db : DB) (a : Attempt) : (recalcAttempt db a).ID = a.ID := rfl

lemma recalcAttempt_Type (db : DB) (a : Attempt) :
    (recalcAttempt db a).Type_ = a.Type_ := rfl

lemma recalcAttempt_scoreListening (db : DB) (a : Attempt) :
    (recalcAttempt db a).ScoreListening =
      if a.Type_ == "FULL_TEST" then
        convertListeningScore (skillCorrect db a.ID "LISTENING")
      else
        practiceSkillScore (skillCorrect db a.ID "LISTENING")
          (skillTotal db a.ID "LISTENING") := rfl

lemma recalcAttempt_scoreReading (db : DB) (a : Attempt) :
    (recalcAttempt db a).ScoreReading =
      if a.Type_ == "FULL_TEST" then
        convertReadingScore (skillCorrect db a.ID "READING")
      else
        practiceSkillScore (skillCorrect db a.ID "READING")
          (skillTotal db a.ID "READING") := rfl

/-! ### Claim C6 -/

/-- C6: for a PRACTICE_BY_PART attempt in which a skill has zero questions,
that skill gets score 0 and the computation is total: the source guards the
division with totalInSkill > 0 and produces the constant 0 in the other
branch, so no division by zero is evaluated. -/
theorem C6_zero_skill_total_gives_zero_score :
    (∀ (db : DB) (a : Attempt), a.Type_ = "PRACTICE_BY_PART" →
      skillTotal db a.ID "LISTENING" = 0 → (recalcAttempt db a).ScoreListening = 0) ∧
    (∀ (db : DB) (a : Attempt), a.Type_ = "PRACTICE_BY_PART" →
      skillTotal db a.ID "READING" = 0 → (recalcAttempt db a).ScoreReading = 0) ∧
    (∀ correct : ℕ, practiceSkillScore correct 0 = 0) := by
  refine ⟨?_, ?_, fun correct => rfl⟩
  · intro db a hmode htot
    rw [recalcAttempt_scoreListening, hmode, htot]
    rfl
  · intro db a hmode htot
    rw [recalcAttempt_scoreReading, hmode, htot]
    rfl

/-! ### Claim C7 -/

/-- C7: for FULL_TEST attempts the per-skill scaled score is monotonically
non-decreasing in the raw correct count of that skill, 100 correct maps to
495, and 0 correct maps to the fixed nonzero floor 5.  The conversion
module itself is modelled from the spec because its source file is absent
from the repository snapshot. -/
theorem C7_full_test_conversion_monotone :
    (∀ x y : ℕ, x ≤ y → convertListeningScore x ≤ convertListeningScore y) ∧
    (∀ x y : ℕ, x ≤ y → convertReadingScore x ≤ convertReadingScore y) ∧
    convertListeningScore 100 = 495 ∧ convertReadingScore 100 = 495 ∧
    convertListeningScore 0 = 5 ∧ convertReadingScore 0 = 5 ∧
    convertListeningScore 0 ≠ 0 ∧ convertReadingScore 0 ≠ 0 ∧
    (∀ (db1 : DB) (a1 : Attempt) (db2 : DB) (a2 : Attempt),
      a1.Type_ = "FULL_TEST" → a2.Type_ = "FULL_TEST" →
      skillCorrect db1 a1.ID "LISTENING" ≤ skillCorrect db2 a2.ID "LISTENING" →
      (recalcAttempt db1 a1).ScoreListening ≤ (recalcAttempt db2 a2).ScoreListening) ∧
    (∀ (db1 : DB) (a1 : Attempt) (db2 : DB) (a2 : Attempt),
      a1.Type_ = "FULL_TEST" → a2.Type_ = "FULL_TEST" →
      skillCorrect db1 a1.ID "READING" ≤ skillCorrect db2 a2.ID "READING" →
      (recalcAttempt db1 a1).ScoreReading ≤ (recalcAttempt db2 a2).ScoreReading) := by
  have hmonoL : ∀ x y : ℕ, x ≤ y → convertListeningScore x ≤ convertListeningScore y := by
    intro x y hxy
    exact min_le_min (le_refl 495) (by omega)
  have hmonoR : ∀ x y : ℕ, x ≤ y → convertReadingScore x ≤ convertReadingScore y := by
    intro x y hxy
    exact min_le_min (le_refl 495) (by omega)
  refine ⟨hmonoL, hmonoR, rfl, rfl, rfl, rfl, by decide, by decide, ?_, ?_⟩
  · intro db1 a1 db2 a2 h1 h2 hle
    rw [recalcAttempt_scoreListening, recalcAttempt_scoreListening, h1, h2]
    exact hmonoL _ _ hle
  · intro db1 a1 db2 a2 h1 h2 hle
    rw [recalcAttempt_scoreReading, recalcAttempt_scoreReading, h1, h2]
    exact hmonoR _ _ hle

/-! ### Claim C5 -/

/-- C5: the recalculation cascade rewrites only the three score columns of
affected attempts, selecting the regime by the original mode of each
attempt; identity, mode, exam reference, startedAt, submittedAt, and every
other table are unchanged, and unaffected attempts are untouched. -/
theorem C5_recalculation_writes_only_scores (questionId : ℕ) (db : DB) :
    (recalculateAttemptScores questionId db).questions = db.questions ∧
    (recalculateAttemptScores questionId db).mediaQuestions = db.mediaQuestions ∧
    (recalculateAttemptScores questionId db).choices = db.choices ∧
    (recalculateAttemptScores questionId db).attemptAnswers = db.attemptAnswers ∧
    (recalculateAttemptScores questionId db).attempts.length = db.attempts.length ∧
    ∀ (i : ℕ) (h1 : i < db.attempts.length)
      (h2 : i < (recalculateAttemptScores questionId db).attempts.length),
      ((recalculateAttemptScores questionId db).attempts.get ⟨i, h2⟩).ID
          = (db.attempts.get ⟨i, h1⟩).ID ∧
      ((recalculateAttemptScores questionId db).attempts.get ⟨i, h2⟩).Type_
          = (db.attempts.get ⟨i, h1⟩).Type_ ∧
      ((recalculateAttemptScores questionId db).attempts.get ⟨i, h2⟩).ExamID
          = (db.attempts.get ⟨i, h1⟩).ExamID ∧
      ((recalculateAttemptScores questionId db).attempts.get ⟨i, h2⟩).StartedAt
          = (db.attempts.get ⟨i, h1⟩).StartedAt ∧
      ((recalculateAttemptScores questionId db).attempts.get ⟨i, h2⟩).SubmittedAt
          = (db.attempts.get ⟨i, h1⟩).SubmittedAt ∧
      ((recalculateAttemptScores questionId db).attempts.get ⟨i, h2⟩
          = db.attempts.get ⟨i, h1⟩ ∨
        (recalculateAttemptScores questionId db).attempts.get ⟨i, h2⟩
          = recalcAttempt db (db.attempts.get ⟨i, h1⟩)) := by
  unfold recalculateAttemptScores
  cases h : db.questions.find? (fun q => q.ID == questionId) with
  | none =>
    refine ⟨rfl, rfl, rfl, rfl, rfl, ?_⟩
    intro i h1 h2
    exact ⟨rfl, rfl, rfl, rfl, rfl, Or.inl rfl⟩
  | some q =>
    refine ⟨rfl, rfl, rfl, rfl, List.length_map _ _, ?_⟩
    intro i h1 h2
    have hget : ({ db with
        attempts := db.attempts.map (fun a =>
          if isAffected db questionId a then recalcAttempt db a else a) } :
        DB).attempts.get ⟨i, h2⟩
        = (fun a => if isAffected db questionId a then recalcAttempt db a else a)
            (db.attempts.get ⟨i, h1⟩) := by
      apply List.get_map
    rw [hget]
    dsimp only
    by_cases haff : isAffected db questionId (db.attempts.get ⟨i, h1⟩) = true
    · rw [if_pos haff]
      exact ⟨rfl, rfl, rfl, rfl, rfl, Or.inr rfl⟩
    · rw [if_neg haff]
      exact ⟨rfl, rfl, rfl, rfl, rfl, Or.inl rfl⟩

/-! ### Claim C8 -/

lemma recalcAttempt_idem (db db2 : DB) (a : Attempt)
    (hq : db2.questions = db.questions)
    (hm : db2.mediaQuestions = db.mediaQuestions)
    (hans : db2.attemptAnswers = db.attemptAnswers) :
    recalcAttempt db2 (recalcAttempt db a) = recalcAttempt db a := by
  have hskill : ∀ aa, answerSkill db2 aa = answerSkill db aa := by
    intro aa
    unfold answerSkill
    rw [hq, hm]
  have hAns : ∀ attemptId, answersOf db2 attemptId = answersOf db attemptId := by
    intro attemptId
    unfold answersOf
    rw [hans]
  have hoc : ∀ attemptId, overallCorrect db2 attemptId = overallCorrect db attemptId := by
    intro attemptId
    unfold overallCorrect
    rw [hAns]
  have hot : ∀ attemptId, overallTotal db2 attemptId = overallTotal db attemptId := by
    intro attemptId
    unfold overallTotal
    rw [hAns]
  have hst : ∀ attemptId sk, skillTotal db2 attemptId sk = skillTotal db attemptId sk := by
    intro attemptId sk
    unfold skillTotal
    rw [hAns]
    congr 1
    apply List.filter_congr
    intro x hx
    rw [hskill]
  have hsc : ∀ attemptId sk, skillCorrect db2 attemptId sk = skillCorrect db attemptId sk := by
    intro attemptId sk
    unfold skillCorrect
    rw [hAns]
    congr 2
    apply List.filter_congr
    intro x hx
    rw [hskill]
  show recalcAttempt db2 (recalcAttempt db a) = recalcAttempt db a
  unfold recalcAttempt
  simp only [hoc, hot, hsc, hst]

/-- C8: the recalculation trigger is idempotent on the stored data: it does
not modify the answer rows it reads, and the scores it writes are a function
of those rows, so running it again rewrites every affected attempt score to
the value it already holds and the database is unchanged.  In particular,
re-triggering it after a question edit that did not actually change any
answer correctness is a safe no-op to the data. -/
theorem C8_recalculation_idempotent (questionId : ℕ) (db : DB) :
    recalculateAttemptScores questionId (recalculateAttemptScores questionId db)
      = recalculateAttemptScores questionId db := by
  have hq := recalc_questions questionId db
  have hm := recalc_media questionId db
  have hans := recalc_answers questionId db
  set db2 := recalculateAttemptScores questionId db with hdb2
  show recalculateAttemptScores questionId db2 = db2
  unfold recalculateAttemptScores
  rw [hq]
  cases h : db.questions.find? (fun q => q.ID == questionId) with
  | none => rfl
  | some q =>
    have hatts : db2.attempts = db.attempts.map
        (fun a => if isAffected db questionId a then recalcAttempt db a else a) := by
      rw [hdb2]
      unfold recalculateAttemptScores
      rw [h]
    have hIDpres : ∀ b : Attempt,
        (if isAffected db questionId b then recalcAttempt db b else b).ID = b.ID := by
      intro b
      by_cases hb : isAffected db questionId b = true
      · rw [if_pos hb]
        rfl
      · rw [if_neg hb]
    have haffEq : ∀ b : Attempt, isAffected db2 questionId b = isAffected db questionId b := by
      intro b
      unfold isAffected
      rw [hans]
    have hmap : db2.attempts.map
        (fun a => if isAffected db2 questionId a then recalcAttempt db2 a else a)
        = db2.attempts := by
      rw [hatts, List.map_map]
      apply List.map_congr_left
      intro a ha
      show (if isAffected db2 questionId
          (if isAffected db questionId a then recalcAttempt db a else a) then
            recalcAttempt db2 (if isAffected db questionId a then recalcAttempt db a else a)
          else (if isAffected db questionId a then recalcAttempt db a else a))
        = (if isAffected db questionId a then recalcAttempt db a else a)
      by_cases haff : isAffected db questionId a = true
      · rw [if_pos haff]
        have hcond : isAffected db2 questionId (recalcAttempt db a) = true := by
          rw [haffEq]
          unfold isAffected at haff ⊢
          rw [recalcAttempt_ID]
          exact haff
        rw [if_pos hcond]
        exact recalcAttempt_idem db db2 a hq hm hans
      · rw [if_neg haff]
        have hcond : ¬ isAffected db2 questionId a = true := by
          rw [haffEq]
          exact haff
        rw [if_neg hcond]
    rw [hmap, ← hq]

/-! ### Claims C1 and C4: score formulas, exact against binary64 -/

/-- C1 (amended): for every PRACTICE_BY_PART attempt and each skill, the
per-skill score is Math.round((correctInSkill / totalInSkill) * 495)
computed in binary64; for any realistic totals this equals exact
round(correctInSkill * 495 / totalInSkill) except when that quotient is
exactly a half-integer, in which case the stored score can be one lower.
In particular 15 correct out of 20 listening questions still yields
scoreListening = 371. -/
theorem C1_practice_score_formula :
    (∀ (db : DB) (a : Attempt), a.Type_ = "PRACTICE_BY_PART" →
      (recalcAttempt db a).ScoreListening
          = practiceSkillScore (skillCorrect db a.ID "LISTENING")
              (skillTotal db a.ID "LISTENING") ∧
      (recalcAttempt db a).ScoreReading
          = practiceSkillScore (skillCorrect db a.ID "READING")
              (skillTotal db a.ID "READING")) ∧
    (∀ correct total : ℕ, 0 < total → total ≤ 100000 → correct ≤ total →
      (practiceSkillScore correct total = specRound (correct * 495) total ∨
        ((2 * (correct * 495) + total) % (2 * total) = 0 ∧
          practiceSkillScore correct total + 1 = specRound (correct * 495) total))) ∧
    practiceSkillScore 15 20 = 371 ∧ specRound (15 * 495) 20 = 371 := by
  refine ⟨?_, ?_, by decide, by decide⟩
  · intro db a hmode
    constructor
    · rw [recalcAttempt_scoreListening, hmode]
      rfl
    · rw [recalcAttempt_scoreReading, hmode]
      rfl
  · intro correct total ht htB hct
    unfold practiceSkillScore
    rw [if_pos ht]
    exact jsScale_agree correct total 495 ht hct (by norm_num) (by norm_num) htB

def attPractice : Attempt :=
  { ID := 1
    Type_ := "PRACTICE_BY_PART"
    ExamID := 1
    StartedAt := 0
    SubmittedAt := some 100
    ScorePercent := 0
    ScoreListening := 0
    ScoreReading := 0 }

/-- A practice attempt over 20 listening questions with 15 correct answers. -/
def dbPractice : DB :=
  { questions := (List.range 20).map (fun i =>
      { ID := i + 1, QuestionText := none, MediaQuestionID := some 1 })
    mediaQuestions := [
      { ID := 1
        Skill := some "LISTENING"
        Type_ := none
        Section := none
        AudioUrl := none
        ImageUrl := none }]
    choices := []
    attempts := [attPractice]
    attemptAnswers := (List.range 20).map (fun i =>
      { ID := i + 1, AttemptID := 1, QuestionID := i + 1,
        ChoiceID := some (i + 1), IsCorrect := decide (i < 15) }) }

theorem C1_witness :
    (recalcAttempt dbPractice attPractice).ScoreListening = 371 ∧
    skillCorrect dbPractice attPractice.ID "LISTENING" = 15 ∧
    skillTotal dbPractice attPractice.ID "LISTENING" = 20 := by
  have h := (C1_practice_score_formula.1 dbPractice attPractice rfl).1
  refine ⟨?_, by decide, by decide⟩
  rw [h]
  decide

def attC1x : Attempt :=
  { ID := 1
    Type_ := "PRACTICE_BY_PART"
    ExamID := 1
    StartedAt := 0
    SubmittedAt := some 100
    ScorePercent := 0
    ScoreListening := 0
    ScoreReading := 0 }

/-- A practice attempt over 90 listening questions with 23 correct answers:
23 * 495 / 90 = 126.5 exactly, and the binary64 product falls just below
126.5, so Math.round gives 126 while exact rounding gives 127. -/
def dbC1x : DB :=
  { questions := (List.range 90).map (fun i =>
      { ID := i + 1, QuestionText := none, MediaQuestionID := some 1 })
    mediaQuestions := [
      { ID := 1
        Skill := some "LISTENING"
        Type_ := none
        Section := none
        AudioUrl := none
        ImageUrl := none }]
    choices := []
    attempts := [attC1x]
    attemptAnswers := (List.range 90).map (fun i =>
      { ID := i + 1, AttemptID := 1, QuestionID := i + 1,
        ChoiceID := some (i + 1), IsCorrect := decide (i < 23) }) }

/-- C1 counterexample: a PRACTICE_BY_PART attempt with 23 of 90 listening
answers correct is stored with scoreListening 126, not
round(23 / 90 * 495) = 127, because the double (23 / 90) * 495 is slightly
below 126.5. -/
theorem C1_counterexample :
    attC1x.Type_ = "PRACTICE_BY_PART" ∧
    skillCorrect dbC1x attC1x.ID "LISTENING" = 23 ∧
    skillTotal dbC1x attC1x.ID "LISTENING" = 90 ∧
    (recalcAttempt dbC1x attC1x).ScoreListening = 126 ∧
    specRound (23 * 495) 90 = 127 ∧
    ¬ (recalcAttempt dbC1x attC1x).ScoreListening
        = specRound (skillCorrect dbC1x attC1x.ID "LISTENING" * 495)
            (skillTotal dbC1x attC1x.ID "LISTENING") := by
  decide

/-- C4 (amended): for every recalculated attempt, scorePercent is
Math.round((totalCorrect / totalQuestions) * 100) computed in binary64,
independent of the attempt mode and of the per-skill scaled scores; for any
realistic totals this equals exact round(totalCorrect * 100 /
totalQuestions) except when that quotient is exactly a half-integer, in
which case the stored value can be one lower. -/
theorem C4_score_percent_formula :
    (∀ (db : DB) (a : Attempt),
      (recalcAttempt db a).ScorePercent
          = scorePercentOf (overallCorrect db a.ID) (overallTotal db a.ID)) ∧
    (∀ correct total : ℕ, 0 < total → total ≤ 100000 → correct ≤ total →
      (scorePercentOf correct total = specRound (correct * 100) total ∨
        ((2 * (correct * 100) + total) % (2 * total) = 0 ∧
          scorePercentOf correct total + 1 = specRound (correct * 100) total))) := by
  refine ⟨fun db a => rfl, ?_⟩
  intro correct total ht htB hct
  unfold scorePercentOf
  rw [if_neg (by omega : ¬ total = 0)]
  exact jsScale_agree correct total 100 ht hct (by norm_num) (by norm_num) htB

def attC4x : Attempt :=
  { ID := 1
    Type_ := "PRACTICE_BY_PART"
    ExamID := 1
    StartedAt := 0
    SubmittedAt := some 100
    ScorePercent := 0
    ScoreListening := 0
    ScoreReading := 0 }

/-- An attempt with 23 of 40 answers correct: 23 * 100 / 40 = 57.5 exactly,
and the binary64 product falls just below 57.5, so Math.round gives 57
while exact rounding gives 58. -/
def dbC4x : DB :=
  { questions := (List.range 40).map (fun i =>
      { ID := i + 1, QuestionText := none, MediaQuestionID := none })
    mediaQuestions := []
    choices := []
    attempts := [attC4x]
    attemptAnswers := (List.range 40).map (fun i =>
      { ID := i + 1, AttemptID := 1, QuestionID := i + 1,
        ChoiceID := some (i + 1), IsCorrect := decide (i < 23) }) }

/-- C4 counterexample: an attempt with 23 correct of 40 answers is stored
with scorePercent 57, not round(23 / 40 * 100) = 58, because the double
(23 / 40) * 100 is slightly below 57.5. -/
theorem C4_counterexample :
    overallCorrect dbC4x attC4x.ID = 23 ∧
    overallTotal dbC4x attC4x.ID = 40 ∧
    (recalcAttempt dbC4x attC4x).ScorePercent = 57 ∧
    specRound (23 * 100) 40 = 58 ∧
    ¬ (recalcAttempt dbC4x attC4x).ScorePercent
        = specRound (overallCorrect dbC4x attC4x.ID * 100)
            (overallTotal dbC4x attC4x.ID) := by
  decide

theorem C4_witness :
    (recalcAttempt dbPractice attPractice).ScorePercent = specRound (15 * 100) 20 := by
  have h1 := C4_score_percent_formula.1 dbPractice attPractice
  rcases C4_score_percent_formula.2 15 20 (by norm_num) (by norm_num) (by norm_num)
    with heq | hne
  · rw [h1]
    have hc : overallCorrect dbPractice attPractice.ID = 15 := by decide
    have ht : overallTotal dbPractice attPractice.ID = 20 := by decide
    rw [hc, ht]
    exact heq
  · exact absurd hne.1 (by decide)

/-! ### Claim C2: transactional structure of the cascade -/

def attC2a : Attempt :=
  { ID := 1
    Type_ := "PRACTICE_BY_PART"
    ExamID := 1
    StartedAt := 0
    SubmittedAt := some 100
    ScorePercent := 50
    ScoreListening := 0
    ScoreReading := 0 }

def attC2b : Attempt :=
  { ID := 2
    Type_ := "PRACTICE_BY_PART"
    ExamID := 1
    StartedAt := 0
    SubmittedAt := some 100
    ScorePercent := 99
    ScoreListening := 99
    ScoreReading := 99 }

/-- Two attempts both referencing question 10; attempt 2 holds stale scores
that a successful repair would change. -/
def dbC2 : DB :=
  { questions := [{ ID := 10, QuestionText := none, MediaQuestionID := none }]
    mediaQuestions := []
    choices := []
    attempts := [attC2a, attC2b]
    attemptAnswers :=
      [{ ID := 1, AttemptID := 1, QuestionID := 10, ChoiceID := some 5, IsCorrect := true },
       { ID := 2, AttemptID := 2, QuestionID := 10, ChoiceID := some 5, IsCorrect := false }] }

/-- The repair of attempt 1 raises; the repair of attempt 2 does not. -/
def failsC2 : ℕ → Bool := fun i => i == 1

/-- C2 counterexample: attempt 2 is affected and its own repair does not
fail, and its stored scores are stale, yet because attempt 1 fails inside
the one shared transaction the whole cascade rolls back and attempt 2 keeps
its stale scores; the failure is not recorded and skipped per attempt. -/
theorem C2_counterexample :
    isAffected dbC2 10 attC2b = true ∧
    failsC2 attC2b.ID = false ∧
    recalculateWithFailures failsC2 10 dbC2 = dbC2 ∧
    recalcAttempt dbC2 attC2b ≠ attC2b ∧
    recalculateAttemptScores 10 dbC2 ≠ dbC2 := by
  decide

/-- C2 (amended): the entire recalculation cascade runs inside a single
transaction with no per-attempt error handling, so a failure while
repairing any affected attempt aborts the whole cascade and every attempt,
failed or not, remains in its pre-repair state. -/
theorem C2_single_transaction_failure_aborts_all (fails : ℕ → Bool)
    (questionId : ℕ) (db : DB) (a : Attempt) (ha : a ∈ db.attempts)
    (haff : isAffected db questionId a = true) (hfail : fails a.ID = true) :
    recalculateWithFailures fails questionId db = db := by
  unfold recalculateWithFailures
  cases h : db.questions.find? (fun q => q.ID == questionId) with
  | none => rfl
  | some q =>
    have hany : db.attempts.any
        (fun b => isAffected db questionId b && fails b.ID) = true := by
      rw [List.any_eq_true]
      exact ⟨a, ha, by simp [haff, hfail]⟩
    rw [if_pos hany]

theorem C2_witness : recalculateWithFailures failsC2 10 dbC2 = dbC2 :=
  C2_single_transaction_failure_aborts_all failsC2 10 dbC2 attC2a
    (by decide) (by decide) (by decide)

/-! ### Claim C9: the exam response reveals nothing about correct answers -/

lemma toQuestionDetail_erase (eq : ExamQuestionRow) :
    toQuestionDetail (eraseRow eq) = toQuestionDetail eq := by
  unfold toQuestionDetail eraseRow eraseExamQ
  simp only [List.map_map]
  rfl

lemma transform_erase (e : Exam) :
    transformToExamDetailResponse (eraseExamCorrectness e)
      = transformToExamDetailResponse e := by
  unfold transformToExamDetailResponse eraseExamCorrectness
  cases hq : e.examQuestions with
  | none => rfl
  | some l =>
    have hsort : (l.map eraseRow).insertionSort byOrderIndex
        = (l.insertionSort byOrderIndex).map eraseRow := by
      symm
      apply List.map_insertionSort
      intro a ha b hb
      exact Iff.rfl
    congr 1
    show List.map toQuestionDetail
        (List.insertionSort byOrderIndex (List.map eraseRow l))
      = List.map toQuestionDetail (List.insertionSort byOrderIndex l)
    rw [hsort, List.map_map]
    apply List.map_congr_left
    intro x hx
    exact toQuestionDetail_erase x

/-- C9: the response of getExamById carries no IsCorrect information: two
exam stores that agree on everything except which choice of each question
is flagged correct produce identical responses for every exam id (and the
response DTO has no IsCorrect field at all by construction). -/
theorem C9_exam_response_hides_correctness (exams1 exams2 : List Exam)
    (examId : ℕ)
    (h : exams1.map eraseExamCorrectness = exams2.map eraseExamCorrectness) :
    getExamById exams1 examId = getExamById exams2 examId := by
  induction exams1 generalizing exams2 with
  | nil =>
    cases exams2 with
    | nil => rfl
    | cons y ys => simp at h
  | cons x xs ih =>
    cases exams2 with
    | nil => simp at h
    | cons y ys =>
      simp only [List.map_cons, List.cons.injEq] at h
      obtain ⟨h1, h2⟩ := h
      have hid : x.ID = y.ID := by
        have h3 := congrArg Exam.ID h1
        exact h3
      have hfind : ∀ (e : Exam) (es : List Exam), (e.ID == examId) = true →
          List.find? (fun e2 => e2.ID == examId) (e :: es) = some e := by
        intro e es he
        rw [List.find?_cons]
        simp [he]
      have hfindn : ∀ (e : Exam) (es : List Exam), (e.ID == examId) = false →
          List.find? (fun e2 => e2.ID == examId) (e :: es)
            = List.find? (fun e2 => e2.ID == examId) es := by
        intro e es he
        rw [List.find?_cons]
        simp [he]
      unfold getExamById
      by_cases hc : (x.ID == examId) = true
      · have hcy : (y.ID == examId) = true := by rw [← hid]; exact hc
        rw [hfind x xs hc, hfind y ys hcy]
        have htr : transformToExamDetailResponse x = transformToExamDetailResponse y := by
          rw [← transform_erase x, ← transform_erase y, h1]
        show Except.ok (transformToExamDetailResponse x)
            = Except.ok (transformToExamDetailResponse y)
        rw [htr]
      · have hcf : (x.ID == examId) = false := by
          simp only [Bool.not_eq_true] at hc
          exact hc
        have hcy : (y.ID == examId) = false := by rw [← hid]; exact hcf
        rw [hfindn x xs hcf, hfindn y ys hcy]
        exact ih ys h2

def mqW : MediaQuestion :=
  { ID := 1
    Skill := some "LISTENING"
    Type_ := some "SINGLE"
    Section := some "1"
    AudioUrl := some "a.mp3"
    ImageUrl := none }

/-- One exam whose single question marks choice A correct when b is true
and choice B correct when b is false. -/
def examW (b : Bool) : Exam :=
  { ID := 7
    Title := "Mock"
    TimeExam := 120
    Type_ := some "FULL_TEST"
    examType := { ID := 1, Code := "FT", Description := none }
    examQuestions := some [
      { QuestionID := 1
        OrderIndex := 1
        question :=
          { ID := 1
            QuestionText := some "Q1"
            choices :=
              [{ ID := 1, QuestionID := 1, Attribute := some "A",
                 Content := some "alpha", IsCorrect := b },
               { ID := 2, QuestionID := 1, Attribute := some "B",
                 Content := some "beta", IsCorrect := !b }]
            mediaQuestion := mqW } }] }

theorem C9_witness :
    examW true ≠ examW false ∧
    getExamById [examW true] 7 = getExamById [examW false] 7 := by
  constructor
  · decide
  · exact C9_exam_response_hides_correctness [examW true] [examW false] 7 (by decide)

/-! ### Claims C3 and C10: analysis of the choice-upsert block -/

/-- The correctness flag an answer row referencing choice cid? carries
after one payload item is processed, as a function of its previous flag. -/
def answerFoldStep (existing : List Choice) (cid? : Option ℕ) (b : Bool)
    (p : ChoicePayload) : Bool :=
  match payloadId p with
  | some cid => if changedFlag existing p cid && (cid? == some cid) then p.IsCorrect else b
  | none => b

lemma updStep_answers (existing : List Choice) (questionId : ℕ)
    (st : QState) (pids : List ℕ) (p : ChoicePayload) :
    ((updStep existing questionId (st, pids) p).1).attemptAnswers
      = st.attemptAnswers.map (fun aa =>
          { aa with IsCorrect := answerFoldStep existing aa.ChoiceID aa.IsCorrect p }) := by
  unfold updStep answerFoldStep
  dsimp only
  cases hp : payloadId p with
  | none =>
    symm
    exact List.map_id' _
  | some cid =>
    dsimp only
    cases hch : changedFlag existing p cid with
    | false =>
      symm
      exact List.map_id' _
    | true =>
      apply List.map_congr_left
      intro aa _
      by_cases hcc : (aa.ChoiceID == some cid) = true
      · rw [if_pos hcc]
        show ({ aa with IsCorrect := p.IsCorrect } : AttemptAnswer)
          = { aa with IsCorrect := (if (true && (aa.ChoiceID == some cid)) = true
              then p.IsCorrect else aa.IsCorrect) }
        rw [Bool.true_and, if_pos hcc]
      · rw [if_neg hcc]
        show aa = ({ aa with IsCorrect := (if (true && (aa.ChoiceID == some cid)) = true
            then p.IsCorrect else aa.IsCorrect) } : AttemptAnswer)
        rw [Bool.true_and, if_neg hcc]

lemma payloadFold_answers (existing : List Choice) (questionId : ℕ) :
    ∀ (choicesData : List ChoicePayload) (acc : QState × List ℕ),
      ((choicesData.foldl (updStep existing questionId) acc).1).attemptAnswers
        = acc.1.attemptAnswers.map (fun aa =>
            { aa with IsCorrect :=
                (choicesData.foldl (fun b q => answerFoldStep existing aa.ChoiceID b q)
                  aa.IsCorrect) }) := by
  intro choicesData
  induction choicesData with
  | nil =>
    intro acc
    symm
    exact List.map_id' _
  | cons p ps ih =>
    intro acc
    obtain ⟨st, pids⟩ := acc
    rw [List.foldl_cons, ih (updStep existing questionId (st, pids) p),
      updStep_answers, List.map_map]
    rfl

lemma deleteStep_answers (pids : List ℕ) (s : QState) (c : Choice) :
    (deleteStep pids s c).attemptAnswers = s.attemptAnswers := by
  unfold deleteStep
  split_ifs <;> rfl

lemma deleteFold_answers (pids : List ℕ) :
    ∀ (ex : List Choice) (s : QState),
      (ex.foldl (deleteStep pids) s).attemptAnswers = s.attemptAnswers := by
  intro ex
  induction ex with
  | nil => intro s; rfl
  | cons e es ih =>
    intro s
    rw [List.foldl_cons, ih, deleteStep_answers]

/-- The answer rows after updateChoices: every row keeps its identity and
references, and its IsCorrect flag is the fold of the payload over its
referenced choice. -/
lemma updateChoices_answers (questionId : ℕ) (choicesData : List ChoicePayload)
    (st : QState) :
    (updateChoices questionId choicesData st).attemptAnswers
      = st.attemptAnswers.map (fun aa =>
          { aa with IsCorrect :=
              (choicesData.foldl
                (fun b q => answerFoldStep
                  (st.choices.filter (fun c => c.QuestionID == questionId))
                  aa.ChoiceID b q)
                aa.IsCorrect) }) := by
  unfold updateChoices
  rw [deleteFold_answers, payloadFold_answers]

lemma foldStep_no_change (existing : List Choice) (cid? : Option ℕ) :
    ∀ (L : List ChoicePayload) (b : Bool),
      (∀ q ∈ L, ∀ d, payloadId q = some d → changedFlag existing q d = true →
        cid? ≠ some d) →
      L.foldl (fun b q => answerFoldStep existing cid? b q) b = b := by
  intro L
  induction L with
  | nil => intro b h; rfl
  | cons p ps ih =>
    intro b h
    rw [List.foldl_cons]
    have hstep : answerFoldStep existing cid? b p = b := by
      unfold answerFoldStep
      cases hp : payloadId p with
      | none => rfl
      | some d =>
        dsimp only
        cases hch : changedFlag existing p d with
        | false => simp
        | true =>
          have hne := h p (List.mem_cons_self p ps) d hp hch
          have hbe : (cid? == some d) = false := by
            rw [beq_eq_false_iff_ne]
            exact hne
          rw [hbe]
          simp
    rw [hstep]
    exact ih b (fun q hq => h q (List.mem_cons_of_mem p hq))

lemma foldStep_changed (existing : List Choice) (cid : ℕ) (p : ChoicePayload)
    (hid : payloadId p = some cid) (hch : changedFlag existing p cid = true)
    (b : Bool) :
    answerFoldStep existing (some cid) b p = p.IsCorrect := by
  unfold answerFoldStep
  rw [hid]
  dsimp only
  rw [hch]
  simp

lemma fold_final_changed (existing : List Choice)
    (choicesData : List ChoicePayload) (p : ChoicePayload) (cid : ℕ)
    (hmem : p ∈ choicesData) (hid : payloadId p = some cid)
    (hnd : (choicesData.filterMap payloadId).Nodup)
    (hch : changedFlag existing p cid = true) (b : Bool) :
    choicesData.foldl (fun b q => answerFoldStep existing (some cid) b q) b
      = p.IsCorrect := by
  obtain ⟨l1, l2, hsplit⟩ := List.append_of_mem hmem
  subst hsplit
  rw [List.foldl_append, List.foldl_cons, foldStep_changed existing cid p hid hch]
  have hlater : ∀ q ∈ l2, payloadId q ≠ some cid := by
    rw [List.filterMap_append, List.filterMap_cons_some hid] at hnd
    have hnotin : cid ∉ l2.filterMap payloadId := by
      have hr := hnd.of_append_right
      exact (List.nodup_cons.mp hr).1
    intro q hq hcontra
    exact hnotin (List.mem_filterMap.mpr ⟨q, hq, hcontra⟩)
  apply foldStep_no_change
  intro q hq d hqd hqch hcc
  have hcd : cid = d := Option.some.inj hcc
  subst hcd
  exact hlater q hq hqd

lemma get_map_of_eq {α β : Type} (f : α → β) {l : List α} {l2 : List β}
    (h : l2 = l.map f) (i : ℕ) (h1 : i < l.length) (h2 : i < l2.length) :
    l2.get ⟨i, h2⟩ = f (l.get ⟨i, h1⟩) := by
  subst h
  simp

/-- C3: when a question edit flips the correctness flag of a stored choice,
every AttemptAnswer row referencing that choice has its IsCorrect flag set
to the new correctness of the choice, every row keeps its identity and its
attempt, question and choice references, and rows whose referenced choice
is not flipped by the edit (in particular all rows of attempts that do not
touch the edited question) are left entirely unchanged. -/
theorem C3_answer_rows_follow_choice_edit
    (st : QState) (questionId : ℕ) (choicesData : List ChoicePayload)
    (p : ChoicePayload) (cid : ℕ)
    (hnd : (choicesData.filterMap payloadId).Nodup)
    (hmem : p ∈ choicesData) (hid : payloadId p = some cid)
    (hch : changedFlag (st.choices.filter (fun c => c.QuestionID == questionId))
      p cid = true) :
    ((updateChoices questionId choicesData st).attemptAnswers.length
        = st.attemptAnswers.length) ∧
    ∀ (i : ℕ) (h1 : i < st.attemptAnswers.length)
      (h2 : i < (updateChoices questionId choicesData st).attemptAnswers.length),
      ((updateChoices questionId choicesData st).attemptAnswers.get ⟨i, h2⟩).AttemptID
          = (st.attemptAnswers.get ⟨i, h1⟩).AttemptID ∧
      ((updateChoices questionId choicesData st).attemptAnswers.get ⟨i, h2⟩).QuestionID
          = (st.attemptAnswers.get ⟨i, h1⟩).QuestionID ∧
      ((updateChoices questionId choicesData st).attemptAnswers.get ⟨i, h2⟩).ChoiceID
          = (st.attemptAnswers.get ⟨i, h1⟩).ChoiceID ∧
      ((st.attemptAnswers.get ⟨i, h1⟩).ChoiceID = some cid →
        ((updateChoices questionId choicesData st).attemptAnswers.get ⟨i, h2⟩).IsCorrect
          = p.IsCorrect) ∧
      ((∀ q ∈ choicesData, ∀ d, payloadId q = some d →
          changedFlag (st.choices.filter (fun c => c.QuestionID == questionId))
            q d = true →
          (st.attemptAnswers.get ⟨i, h1⟩).ChoiceID ≠ some d) →
        (updateChoices questionId choicesData st).attemptAnswers.get ⟨i, h2⟩
          = st.attemptAnswers.get ⟨i, h1⟩) := by
  have hanswers := updateChoices_answers questionId choicesData st
  refine ⟨by rw [hanswers]; exact List.length_map _ _, ?_⟩
  intro i h1 h2
  have hget := get_map_of_eq _ hanswers i h1 h2
  rw [hget]
  refine ⟨rfl, rfl, rfl, ?_, ?_⟩
  · intro hcid
    show (choicesData.foldl
        (fun b q => answerFoldStep
          (st.choices.filter (fun c => c.QuestionID == questionId))
          (st.attemptAnswers.get ⟨i, h1⟩).ChoiceID b q)
        (st.attemptAnswers.get ⟨i, h1⟩).IsCorrect) = p.IsCorrect
    rw [hcid]
    exact fold_final_changed _ choicesData p cid hmem hid hnd hch _
  · intro hother
    have hval : (choicesData.foldl
        (fun b q => answerFoldStep
          (st.choices.filter (fun c => c.QuestionID == questionId))
          (st.attemptAnswers.get ⟨i, h1⟩).ChoiceID b q)
        (st.attemptAnswers.get ⟨i, h1⟩).IsCorrect)
        = (st.attemptAnswers.get ⟨i, h1⟩).IsCorrect := by
      apply foldStep_no_change
      intro q hq d hqd hqch
      exact hother q hq d hqd hqch
    show ({ st.attemptAnswers.get ⟨i, h1⟩ with IsCorrect :=
        (choicesData.foldl
          (fun b q => answerFoldStep
            (st.choices.filter (fun c => c.QuestionID == questionId))
            (st.attemptAnswers.get ⟨i, h1⟩).ChoiceID b q)
          (st.attemptAnswers.get ⟨i, h1⟩).IsCorrect) } : AttemptAnswer)
      = st.attemptAnswers.get ⟨i, h1⟩
    rw [hval]

lemma updStep_choiceIds (existing : List Choice) (questionId : ℕ)
    (st : QState) (pids : List ℕ) (p : ChoicePayload) (cid : ℕ)
    (h : ∃ c ∈ st.choices, c.ID = cid) :
    ∃ c ∈ ((updStep existing questionId (st, pids) p).1).choices, c.ID = cid := by
  obtain ⟨c, hcmem, hcid⟩ := h
  unfold updStep
  dsimp only
  cases hp : payloadId p with
  | some d =>
    dsimp only
    refine ⟨if c.ID == d then applyChoiceUpdate p c else c,
      List.mem_map_of_mem _ hcmem, ?_⟩
    by_cases hcd : (c.ID == d) = true
    · rw [if_pos hcd]
      exact hcid
    · rw [if_neg hcd]
      exact hcid
  | none =>
    dsimp only
    exact ⟨c, List.mem_append_left _ hcmem, hcid⟩

lemma payloadFold_choiceIds (existing : List Choice) (questionId : ℕ) :
    ∀ (choicesData : List ChoicePayload) (st : QState) (pids : List ℕ) (cid : ℕ),
      (∃ c ∈ st.choices, c.ID = cid) →
      ∃ c ∈ ((choicesData.foldl (updStep existing questionId) (st, pids)).1).choices,
        c.ID = cid := by
  intro choicesData
  induction choicesData with
  | nil => intro st pids cid h; exact h
  | cons p ps ih =>
    intro st pids cid h
    rw [List.foldl_cons]
    have h2 := updStep_choiceIds existing questionId st pids p cid h
    exact ih (updStep existing questionId (st, pids) p).1
      (updStep existing questionId (st, pids) p).2 cid h2

lemma deleteFold_preserves (pids : List ℕ) :
    ∀ (ex : List Choice) (s : QState) (cid : ℕ),
      (∃ aa ∈ s.attemptAnswers, aa.ChoiceID = some cid) →
      (∃ c ∈ s.choices, c.ID = cid) →
      ∃ c ∈ (ex.foldl (deleteStep pids) s).choices, c.ID = cid := by
  intro ex
  induction ex with
  | nil => intro s cid h1 h2; exact h2
  | cons e es ih =>
    intro s cid h1 h2
    rw [List.foldl_cons]
    apply ih
    · rw [deleteStep_answers]
      exact h1
    · unfold deleteStep
      split_ifs with hin hany
      · exact h2
      · exact h2
      · obtain ⟨c, hcmem, hcid⟩ := h2
        refine ⟨c, ?_, hcid⟩
        rw [List.mem_filter]
        refine ⟨hcmem, ?_⟩
        have hne : c.ID ≠ e.ID := by
          intro hEq
          apply hany
          obtain ⟨aa, haamem, haac⟩ := h1
          rw [List.any_eq_true]
          refine ⟨aa, haamem, ?_⟩
          rw [haac, ← hcid, hEq]
          simp
        rw [bne_iff_ne]
        exact hne

lemma updateChoices_choice_kept (questionId : ℕ) (choicesData : List ChoicePayload)
    (st : QState) (cid : ℕ)
    (href : ∃ aa ∈ st.attemptAnswers, aa.ChoiceID = some cid)
    (hex : ∃ c ∈ st.choices, c.ID = cid) :
    ∃ c ∈ (updateChoices questionId choicesData st).choices, c.ID = cid := by
  unfold updateChoices
  apply deleteFold_preserves
  · rw [payloadFold_answers]
    obtain ⟨aa, hmem, hcid⟩ := href
    exact ⟨_, List.mem_map_of_mem _ hmem, hcid⟩
  · apply payloadFold_choiceIds
    exact hex

/-- C10: during update, a stored choice that is absent from the payload is
deleted only when no AttemptAnswer references it; a choice referenced by at
least one AttemptAnswer survives, and hence every answer row that pointed
at an existing choice before the update still points at an existing choice
afterwards. -/
theorem C10_update_never_orphans_answers (st : QState) (questionId : ℕ)
    (choicesData : List ChoicePayload)
    (hinv : ∀ aa ∈ st.attemptAnswers, ∀ cid, aa.ChoiceID = some cid →
      ∃ c ∈ st.choices, c.ID = cid) :
    (∀ aa2 ∈ (updateChoices questionId choicesData st).attemptAnswers, ∀ cid,
      aa2.ChoiceID = some cid →
      ∃ c ∈ (updateChoices questionId choicesData st).choices, c.ID = cid) ∧
    (∀ c ∈ st.choices, (∃ aa ∈ st.attemptAnswers, aa.ChoiceID = some c.ID) →
      ∃ c2 ∈ (updateChoices questionId choicesData st).choices, c2.ID = c.ID) := by
  constructor
  · intro aa2 hmem2 cid hcid2
    rw [updateChoices_answers] at hmem2
    obtain ⟨aa, hmem, hEq⟩ := List.mem_map.mp hmem2
    have hcid : aa.ChoiceID = some cid := by
      rw [← hEq] at hcid2
      exact hcid2
    exact updateChoices_choice_kept questionId choicesData st cid
      ⟨aa, hmem, hcid⟩ (hinv aa hmem cid hcid)
  · intro c hcmem href
    exact updateChoices_choice_kept questionId choicesData st c.ID href
      ⟨c, hcmem, rfl⟩

def choiceW1 : Choice :=
  { ID := 1, QuestionID := 1, Attribute := some "A",
    Content := some "alpha", IsCorrect := true }

def choiceW2 : Choice :=
  { ID := 2, QuestionID := 1, Attribute := some "B",
    Content := some "beta", IsCorrect := false }

/-- A question with two stored choices and two answer rows, one per choice. -/
def stW : QState :=
  { choices := [choiceW1, choiceW2]
    attemptAnswers :=
      [{ ID := 1, AttemptID := 1, QuestionID := 1, ChoiceID := some 1, IsCorrect := true },
       { ID := 2, AttemptID := 2, QuestionID := 1, ChoiceID := some 2, IsCorrect := false }]
    nextChoiceId := 10 }

/-- An edit that flips the correct choice from choice 1 to choice 2. -/
def pW1 : ChoicePayload :=
  { ID := some 1, Attribute := some "A", Content := some "alpha", IsCorrect := false }

def pW2 : ChoicePayload :=
  { ID := some 2, Attribute := some "B", Content := some "beta", IsCorrect := true }

def payloadW : List ChoicePayload := [pW1, pW2]

theorem C3_witness :
    ((updateChoices 1 payloadW stW).attemptAnswers.get ⟨0, by decide⟩).IsCorrect
      = false := by
  have h := (C3_answer_rows_follow_choice_edit stW 1 payloadW pW1 1
    (by decide) (by decide) (by decide) (by decide)).2 0 (by decide) (by decide)
  have hc := h.2.2.2.1 (by decide)
  exact hc

/-- The payload of an edit that keeps only choice 1; choice 2 is absent. -/
def payloadW2 : List ChoicePayload := [pW1]

theorem C10_witness :
    ∃ c ∈ (updateChoices 1 payloadW2 stW).choices, c.ID = 2 := by
  have hinv : ∀ aa ∈ stW.attemptAnswers, ∀ cid, aa.ChoiceID = some cid →
      ∃ c ∈ stW.choices, c.ID = cid := by
    intro aa hmem cid hcid
    fin_cases hmem
    · injection hcid with hc
      subst hc
      exact ⟨choiceW1, by decide, rfl⟩
    · injection hcid with hc
      subst hc
      exact ⟨choiceW2, by decide, rfl⟩
  have h := (C10_update_never_orphans_answers stW 1 payloadW2 hinv).2
  have h2 := h choiceW2 (by decide) (by decide)
  exact h2

def attFull : Attempt :=
  { ID := 1
    Type_ := "FULL_TEST"
    ExamID := 1
    StartedAt := 0
    SubmittedAt := some 100
    ScorePercent := 0
    ScoreListening := 0
    ScoreReading := 0 }

/-- A full-test attempt over one listening question answered correctly. -/
def dbFull : DB :=
  { questions := [{ ID := 1, QuestionText := none, MediaQuestionID := some 1 }]
    mediaQuestions := [
      { ID := 1
        Skill := some "LISTENING"
        Type_ := none
        Section := none
        AudioUrl := none
        ImageUrl := none }]
    choices := []
    attempts := [attFull]
    attemptAnswers := [
      { ID := 1, AttemptID := 1, QuestionID := 1, ChoiceID := some 1, IsCorrect := true }] }

theorem C5_witness :
    (recalculateAttemptScores 1 dbPractice).attemptAnswers
        = dbPractice.attemptAnswers ∧
    ((recalculateAttemptScores 1 dbPractice).attempts.get ⟨0, by decide⟩).ID
        = (dbPractice.attempts.get ⟨0, by decide⟩).ID := by
  have h := C5_recalculation_writes_only_scores 1 dbPractice
  exact ⟨h.2.2.2.1, (h.2.2.2.2.2 0 (by decide) (by decide)).1⟩

theorem C6_witness :
    (recalcAttempt dbPractice attPractice).ScoreReading = 0 ∧
    skillTotal dbPractice attPractice.ID "READING" = 0 := by
  refine ⟨?_, by decide⟩
  exact C6_zero_skill_total_gives_zero_score.2.1 dbPractice attPractice rfl (by decide)

theorem C7_witness :
    convertListeningScore 3 ≤ convertListeningScore 7 ∧
    convertReadingScore 3 ≤ convertReadingScore 7 ∧
    (recalcAttempt dbFull attFull).ScoreListening
      ≤ (recalcAttempt dbFull attFull).ScoreListening := by
  have h := C7_full_test_conversion_monotone
  refine ⟨h.1 3 7 (by decide), h.2.1 3 7 (by decide), ?_⟩
  exact h.2.2.2.2.2.2.2.2.1 dbFull attFull dbFull attFull rfl rfl (le_refl _)

end ToeicExam
